import Mathlib

/-!
Verification of the moea repository (EnergyPLAN batch-evaluation gateway and
domain-knowledge genetic operators) against its natural-language specification.

The Python sources are shallowly embedded:
  * text files are lists of lines (each line keeps its trailing newline, as
    returned by Python readlines);
  * Python dictionaries are association lists in insertion order, with
    assignment updating an existing key in place and appending a fresh key;
  * fallible operations return an Except value whose error constructor names
    the Python exception that the source would raise;
  * numpy floating point arrays become functions into the real numbers, and
    the random draws that numpy produces are passed as explicit arguments.
-/

namespace Moea

/-! ## Character-level string utilities

Python string operations used by the sources (strip, replace, split on a
character, substring containment) are modelled on the character list that
underlies a Lean string.  Python strip removes leading and trailing
whitespace; Char.isWhitespace covers the whitespace characters that occur in
EnergyPLAN artifacts (space, tab, newline, carriage return). -/

/-- Split a character list at every occurrence of the separator character,
keeping empty chunks, as Python str.split with an explicit separator does. -/
def splitChar (sep : Char) : List Char → List (List Char)
  | [] => [[]]
  | c :: cs =>
    let rest := splitChar sep cs
    if c = sep then [] :: rest
    else match rest with
      | [] => [[c]]
      | r :: rs => (c :: r) :: rs

/-- Python str.split on the tab character. -/
def splitTab (s : String) : List String :=
  (splitChar '\t' s.toList).map List.asString

/-- Python str.strip: drop leading and trailing whitespace. -/
def pyStrip (s : String) : String :=
  ((s.toList.dropWhile Char.isWhitespace).reverse.dropWhile
      Char.isWhitespace).reverse.asString

/-- Python str.replace with single-character arguments: map one character to
another everywhere. -/
def pyReplaceChar (a b : Char) (s : String) : String :=
  (s.toList.map (fun c => if c = a then b else c)).asString

/-- Python str.replace deleting every occurrence of one character (used by the
sources as replace applied to the equals sign with an empty replacement). -/
def pyDropChar (a : Char) (s : String) : String :=
  (s.toList.filter (fun c => c ≠ a)).asString

/-- Containment of one character list in another, as the Python in operator on
strings: some contiguous slice of the haystack equals the needle. -/
def listContains [DecidableEq α] : List α → List α → Bool
  | _, [] => false
  | needle, c :: cs => needle.isPrefixOf (c :: cs) || listContains needle cs

/-- Python substring test needle in hay (an empty needle is contained in
every string). -/
def pyIn (needle hay : String) : Bool :=
  needle.toList.isPrefixOf hay.toList || listContains needle.toList hay.toList

/-- Suffix test used to model pathlib glob with a star dot txt pattern. -/
def strEndsWith (s suf : String) : Bool :=
  suf.toList.reverse.isPrefixOf s.toList.reverse

/-- Value of a decimal digit character, none for other characters. -/
def digitVal (c : Char) : Option ℕ :=
  if c.isDigit then some (c.toNat - '0'.toNat) else none

/-- Read a list of decimal digit characters as a natural number, none when a
non-digit appears.  The boolean result records whether at least one digit was
read. -/
def digitsToNat : List Char → Option (ℕ × ℕ)
  | [] => some (0, 0)
  | c :: cs => do
    let d ← digitVal c
    let (n, k) ← digitsToNat cs
    pure (d * 10 ^ cs.length + n, k + 1)

/-- Modelled from the spec: the Python built-in float conversion, restricted
to the plain decimal literals (optional sign, integer digits, optional
fractional digits) that the EnergyPLAN reports contain after the comma to
point normalisation; any other string raises ValueError, modelled as none.
The Python built-in itself is external library code, absent from src. -/
def parseFloat (s : String) : Option ℚ :=
  let cs := s.toList
  let (neg, cs) :=
    match cs with
    | '-' :: rest => (true, rest)
    | '+' :: rest => (false, rest)
    | _ => (false, cs)
  match splitChar '.' cs with
  | [a] => do
    let (n, k) ← digitsToNat a
    if k = 0 then none else
    pure (if neg then -(n : ℚ) else (n : ℚ))
  | [a, b] => do
    let (n, ka) ← digitsToNat a
    let (m, kb) ← digitsToNat b
    if ka + kb = 0 then none else
    let q : ℚ := (n : ℚ) + (m : ℚ) / (10 : ℚ) ^ b.length
    pure (if neg then -q else q)
  | _ => none

/-! ## Python exceptions and dictionaries -/

/-- The Python exceptions that the embedded fragments can raise. -/
inductive PyErr where
  | stopIteration
  | indexError
  | valueError
  | fileNotFound
  deriving DecidableEq, Repr

/-- Python dictionaries in insertion order.  Values are kept in their
serialized (string) form, which is what dump_input writes and parse_input
reads back. -/
abbrev PyDict := List (String × String)

/-- Python dictionary assignment d[k] = v: update an existing key in place,
append a fresh key at the end. -/
def dictSet (d : PyDict) (k v : String) : PyDict :=
  if d.any (fun p => p.1 = k) then
    d.map (fun p => if p.1 = k then (k, v) else p)
  else d ++ [(k, v)]

/-- The keys of a Python dictionary. -/
def dictKeys (d : PyDict) : List String := d.map Prod.fst

/-- Python dictionary lookup (first binding of the key). -/
def dictGet : PyDict → String → Option String
  | [], _ => none
  | p :: d, k => if p.1 = k then some p.2 else dictGet d k

/-! ## Input serializer: moea.utils.dump_input and moea.utils.parse_input

dump_input(input_dict, i, data, ...) substitutes the override values into the
template dictionary data in place (for k, v in input_dict.items():
data[k] = v) and then writes the EnergyPLAN version header followed by
alternating key and value lines.  The in-place substitution is made explicit
by returning the post-call state of data together with the written lines.
The destination path, the index i and the clean_folder flag only choose the
file name and clear the results directory; they do not affect the document
content, so the embedding returns the lines themselves. -/

/-- The in-place overlay loop of dump_input: every override entry is written
into the template dictionary. -/
def overlay (input_dict data : PyDict) : PyDict :=
  input_dict.foldl (fun d kv => dictSet d kv.1 kv.2) data

/-- The body lines written by dump_input for the (already overlaid) template:
for every entry except the EnergyPLAN version key, a key line terminated by
an equals sign and a value line. -/
def dumpLines : PyDict → List String
  | [] => []
  | (k, v) :: rest =>
    if k = "EnergyPLAN version" then dumpLines rest
    else (k ++ "=\n") :: (v ++ "\n") :: dumpLines rest

/-- Embeds moea.utils.dump_input: mutate the template by the overrides, then
write the version header and the key and value line pairs.  Returns the
post-call template state and the file lines. -/
def dump_input (input_dict : PyDict) (data : PyDict) : PyDict × List String :=
  let data := overlay input_dict data
  (data, "EnergyPLAN version\n" :: "698\n" :: dumpLines data)

/-- The paired-line loop of moea.utils.parse_input: rows are consumed two at
a time; a row equal to the three-letter sentinel stops the loop; reading the
value row past the end of the file raises IndexError.  Each key row is
stripped and has every equals sign removed. -/
def parseInputLoop : List String → PyDict → Except PyErr PyDict
  | [], d => .ok d
  | r :: rest, d =>
    if r = "xxx" then .ok d
    else
      match rest with
      | [] => .error .indexError
      | v :: rest' =>
        parseInputLoop rest' (dictSet d (pyDropChar '=' (pyStrip r)) (pyStrip v))

/-- Embeds moea.utils.parse_input: read the artifact lines into a fresh
dictionary. -/
def parse_input (rows : List String) : Except PyErr PyDict :=
  parseInputLoop rows []

/-! ## Output parser: moea.utils.find_position, find_objectives, find_values

find_position scans at most the first eighty lines of a result artifact for a
bare key; a tuple key skips that region, joins lines eighty and eighty-one
into column headers, picks the first column header containing the column
label (silently keeping the last index when none matches), and scans lines
eighty-two to one hundred three for a line containing the row label.  A bare
key that survives the first eighty lines falls through into the same tuple
code, where indexing key[0] and key[1] reads its first two characters (an
IndexError for shorter keys).  Reading past the end of the file raises
StopIteration, and a fruitless row scan returns Python None. -/

/-- A requested quantity key: either a bare header substring or a row label
and column label pair. -/
inductive KeyQ where
  | bare (s : String)
  | pair (row col : String)
  deriving DecidableEq, Repr

/-- First column index of a stripped tab cell containing the key, as the
inner for loop of find_position. -/
def findColIdx (key : String) : List String → Option ℕ
  | [] => none
  | c :: cs =>
    if pyIn key c then some 0
    else (findColIdx key cs).map (· + 1)

/-- The bare-key scan over the first eighty lines.  Returns the found
position (the column index is shifted one to the right, which is where
find_objectives reads the value), or the remaining lines once the budget of
eighty lines is exhausted; a file shorter than the scanned region raises
StopIteration. -/
def scanBare (key : String) : ℕ → ℕ → List String →
    Except PyErr ((ℕ × ℕ) ⊕ List String)
  | 0, _, lines => .ok (.inr lines)
  | _ + 1, _, [] => .error .stopIteration
  | fuel + 1, i, l :: rest =>
    match findColIdx key ((splitTab l).map pyStrip) with
    | some j => .ok (.inl (i, j + 1))
    | none => scanBare key fuel (i + 1) rest

/-- Skip the first eighty lines for a tuple key (the loop only advances the
file and the counter); StopIteration when the file is shorter. -/
def dropLines : ℕ → List String → Except PyErr (List String)
  | 0, lines => .ok lines
  | _ + 1, [] => .error .stopIteration
  | n + 1, _ :: rest => dropLines n rest

/-- Join the header cells of lines eighty and eighty-one; indexing the second
line at a position that only exists in the first raises IndexError. -/
def combineHeader (c1 c2 : List String) : Except PyErr (List String) :=
  match c1 with
  | [] => .ok []
  | a :: c1' =>
    match c2 with
    | [] => .error .indexError
    | b :: c2' => do
      let rest ← combineHeader c1' c2'
      pure ((pyStrip a ++ " " ++ pyStrip b) :: rest)

/-- Column selection for a tuple key: the first joined header containing the
column label, silently defaulting to the LAST column index when no header
matches (the Python for loop leaves its variable at the final index when it
finishes without break). -/
def findColDefault (col : String) (ks : List String) : ℕ :=
  match findColIdx col ks with
  | some j => j
  | none => ks.length - 1

/-- The row scan of lines eighty-two to one hundred three: the first raw line
containing the row label yields the position; exhausting the budget returns
Python None; exhausting the file raises StopIteration. -/
def scanRow (row : String) (j : ℕ) : ℕ → ℕ → List String →
    Except PyErr (Option (ℕ × ℕ))
  | 0, _, _ => .ok none
  | _ + 1, _, [] => .error .stopIteration
  | fuel + 1, i, l :: rest =>
    if pyIn row l then .ok (some (i, j)) else scanRow row j fuel (i + 1) rest

/-- The tuple-key tail of find_position, shared with bare keys that fell
through the first eighty lines.  The row and column labels arrive as Except
values because a short bare key only raises its IndexError inside this
region. -/
def findPosTail (rowL colL : Except PyErr String) (rest : List String) :
    Except PyErr (Option (ℕ × ℕ)) :=
  match rest with
  | [] => .error .stopIteration
  | l1 :: rest1 =>
    match rest1 with
    | [] => .error .stopIteration
    | l2 :: rest2 => do
      let ks ← combineHeader (splitTab l1) (splitTab l2)
      let col ← colL
      let row ← rowL
      scanRow row (findColDefault col ks) 22 82 rest2

/-- Python single-character indexing s[i] for the fall-through bare key. -/
def charAt (s : String) (i : ℕ) : Except PyErr String :=
  match s.toList.get? i with
  | some c => .ok (List.asString [c])
  | none => .error .indexError

/-- Embeds moea.utils.find_position.  The result is Python None (ok none)
when the row scan finds nothing, a position otherwise; StopIteration and
IndexError model the uncaught exceptions of the source. -/
def find_position (lines : List String) (key : KeyQ) :
    Except PyErr (Option (ℕ × ℕ)) :=
  match key with
  | .bare s =>
    match scanBare s 80 0 lines with
    | .error e => .error e
    | .ok (.inl p) => .ok (some p)
    | .ok (.inr rest) => findPosTail (charAt s 0) (charAt s 1) rest
  | .pair r c => do
    let rest ← dropLines 80 lines
    findPosTail (.ok r) (.ok c) rest

/-- The error-propagating accumulation of a Python for loop that appends one
fallible result per element: the first uncaught exception aborts the loop. -/
def pyMap (f : α → Except PyErr β) : List α → Except PyErr (List β)
  | [] => .ok []
  | a :: l =>
    match f a with
    | .error e => .error e
    | .ok b =>
      match pyMap f l with
      | .error e => .error e
      | .ok bs => .ok (b :: bs)

/-- Embeds moea.utils.find_positions followed by the stacking step: numpy
stack fails on an empty list, and any Python None among the positions is
fatal (either the stack of mixed shapes or the later unpacking raises). -/
def find_positions (lines : List String) (keys : List KeyQ) :
    Except PyErr (List (ℕ × ℕ)) :=
  if keys.isEmpty then .error .valueError
  else
    match pyMap (find_position lines) keys with
    | .error e => .error e
    | .ok opts =>
      pyMap (fun o =>
        match o with
        | some p => .ok p
        | none => .error .valueError) opts

/-- Read the value cell at a found position: the line at the row index, split
on tabs, indexed at the column, stripped, with the locale decimal comma
normalised to a point, converted by float. -/
def readCell (lines : List String) (p : ℕ × ℕ) : Except PyErr ℚ :=
  match lines.get? p.1 with
  | none => .error .indexError
  | some line =>
    match (splitTab line).get? p.2 with
    | none => .error .indexError
    | some cell =>
      match parseFloat (pyReplaceChar ',' '.' (pyStrip cell)) with
      | none => .error .valueError
      | some q => .ok q

/-- Embeds moea.utils.find_objectives: locate every key, then read each
value cell. -/
def find_objectives (lines : List String) (keys : List KeyQ) :
    Except PyErr (List ℚ) :=
  match find_positions lines keys with
  | .error e => .error e
  | .ok idxs => pyMap (readCell lines) idxs

/-- A results directory: file names with their content lines. -/
abbrev Folder := List (String × List String)

/-- The result artifact name that the spool run produces for input index i. -/
def resultName (i : ℕ) : String := "input" ++ toString i ++ ".txt.txt"

/-- Embeds moea.utils.find_values: the row count is the number of files with
a txt suffix in the results folder; row i is extracted from the artifact for
input index i (a missing artifact raises FileNotFoundError when opened);
numpy vstack rejects an empty row list. -/
def find_values (folder : Folder) (keys : List KeyQ) :
    Except PyErr (List (List ℚ)) :=
  match pyMap (fun i =>
    match folder.lookup (resultName i) with
    | none => .error .fileNotFound
    | some doc => find_objectives doc keys)
    (List.range ((folder.filter (fun f => strEndsWith f.1 ".txt")).length)) with
  | .error e => .error e
  | .ok rows => if rows.isEmpty then .error .valueError else .ok rows

/-! ## Batch simulation gateway: moea.utils.execute_energyplan_spool and the
evaluation pipeline of BaseModel._evaluate

subprocess.run is invoked without the check flag, so it returns a
CompletedProcess whose exit status nobody inspects; execute_energyplan_spool
discards it and returns Python None.  The simulator itself is an external
executable: its exit status and the results folder it leaves behind are
parameters of the embedding. -/

/-- The value subprocess.run returns for the external simulator process. -/
structure CompletedProcess where
  returncode : ℤ
  deriving DecidableEq, Repr

/-- Embeds subprocess.run as called by the sources: no check flag is passed,
so a non-zero exit status raises nothing and is merely recorded in the
returned CompletedProcess. -/
def subprocessRun (exitCode : ℤ) : CompletedProcess := ⟨exitCode⟩

/-- Embeds moea.utils.execute_energyplan_spool: run the simulator over the
input files and discard the CompletedProcess (the source returns None). -/
def execute_energyplan_spool (input_files : List String) (exitCode : ℤ) :
    CompletedProcess :=
  let _ := input_files
  subprocessRun exitCode

/-- Embeds the evaluation pipeline of BaseModel._evaluate as realised by the
model classes (AalborgA and the sibling models pass the template dictionary
self.default_data; BaseModel._evaluate itself omits that required argument):
serialize every individual with dump_input, invoke the simulator once in
spool mode, then assemble out F with find_values over the results folder.
The simulator output is the simResults parameter. -/
def evaluate_F (pop : List PyDict) (template : PyDict) (exitCode : ℤ)
    (simResults : Folder) (objectives : List KeyQ) :
    Except PyErr (List (List ℚ)) :=
  let inputNames := (List.range pop.length).map
    (fun i => "input" ++ toString i ++ ".txt")
  let _spool := pop.map (fun ind => dump_input ind template)
  let _run := execute_energyplan_spool inputNames exitCode
  find_values simResults objectives

/-! ## Solow-Polasky diversification: moea.utils.solow_polasky_diversification

Decision vectors are lists of reals, populations are lists of rows.  numpy
argmax returns the first index attaining the maximum.  numpy linalg.inv is
modelled by the Mathlib matrix inverse (the source would raise on an exactly
singular kernel, which the spec declares a fatal configuration error).  The
source asserts that the pool is strictly larger than the requested size;
the theorems carry that assertion as a hypothesis. -/

/-- Squared Euclidean distance of two rows. -/
def sqDist (a b : List ℝ) : ℝ :=
  ((a.zip b).map (fun p => (p.1 - p.2) ^ 2)).sum

/-- Euclidean distance of two rows, as numpy linalg.norm of their
difference. -/
noncomputable def eDist (a b : List ℝ) : ℝ := Real.sqrt (sqDist a b)

/-- Index tracking loop implementing numpy argmax: the running best index is
replaced only on a strictly larger value, so the first maximum wins. -/
noncomputable def argmaxAux (f : α → ℝ) : ℕ → ℕ → ℝ → List α → ℕ
  | _, bi, _, [] => bi
  | i, bi, bv, x :: xs =>
    if bv < f x then argmaxAux f (i + 1) i (f x) xs
    else argmaxAux f (i + 1) bi bv xs

/-- numpy argmax over the values of f on a list (zero on an empty list, where
numpy would raise instead). -/
noncomputable def argmaxIdx (f : α → ℝ) : List α → ℕ
  | [] => 0
  | x :: xs => argmaxAux f 1 0 (f x) xs

/-- The diversity kernel Q over the currently selected rows. -/
noncomputable def spKernel (theta : ℝ) (Xp : List (List ℝ)) :
    Matrix (Fin Xp.length) (Fin Xp.length) ℝ :=
  Matrix.of fun i j => Real.exp (-theta * eDist (Xp.get i) (Xp.get j))

/-- Marginal Solow-Polasky contribution of a candidate row to the selected
population, as computed in the inner loop of the source. -/
noncomputable def spScore (theta : ℝ) (Xp : List (List ℝ)) (x : List ℝ) : ℝ :=
  let Qinv := (spKernel theta Xp)⁻¹
  let r : Fin Xp.length → ℝ := fun i => eDist (Xp.get i) x
  let v : ℝ := -(∑ i, ∑ j, r i * Qinv i j * r j)
  let W := Qinv.mulVec r
  let phi := ∑ i, W i
  (1 / v) * (phi - 1) ^ 2

/-- The greedy selection loop (for i in range(1, size)): move the candidate
with the highest diversity contribution from the pool to the selection. -/
noncomputable def spLoop (theta : ℝ) :
    ℕ → List (List ℝ) → List (List ℝ) → List (List ℝ) × List (List ℝ)
  | 0, Xp, pool => (Xp, pool)
  | k + 1, Xp, pool =>
    let j := argmaxIdx (spScore theta Xp) pool
    spLoop theta k (Xp ++ [pool.getD j []]) (pool.eraseIdx j)

/-- Embeds moea.utils.solow_polasky_diversification: seed with the first row,
add the pool row farthest from the seed, then run the greedy loop size minus
one more times. -/
noncomputable def solow_polasky_diversification (X : List (List ℝ))
    (theta : ℝ) (size : ℕ) : List (List ℝ) :=
  match X with
  | [] => []
  | x0 :: rest =>
    let j := argmaxIdx (fun y => eDist y x0) rest
    (spLoop theta (size - 1) [x0, rest.getD j []] (rest.eraseIdx j)).1

/-! ## Domain-knowledge operators: moea.operators.domain_knowledge

The tri-state directionality tag of a variable is an Option Bool (the pandas
cells hold True, False or None).  Each call of the Python helpers draws one
fresh uniform sample; the embedding receives that draw as the argument u. -/

/-- Embeds increasing(beta): the draw transformed toward the upper bound. -/
noncomputable def increasing (beta u : ℝ) : ℝ := u ^ ((1 : ℝ) / (beta + 1))

/-- Embeds decreasing(beta): the mirror transform toward the lower bound. -/
noncomputable def decreasing (beta u : ℝ) : ℝ :=
  1 - (1 - u) ^ ((1 : ℝ) / (beta + 1))

/-- Embeds generate_sample: dispatch on the directionality tag of decision
variable dv for objective o. -/
noncomputable def generate_sample (tag : Option Bool) (beta u : ℝ) : ℝ :=
  match tag with
  | some true => increasing beta u
  | some false => decreasing beta u
  | none => u

/-- The oversampled raw matrix of DomainKnowledgeInitialization._do: entry
(r, dv) is the biased draw for decision variable dv under the tags of the
objective owning row r (row r of sample i, objective j, repeat k is
i times o times cap plus j times cap plus k, so the objective index is r
divided by cap modulo o).  The draws of numpy.random.choice over the
configured betas and of numpy.random.rand are the betaDraw and uDraw
oracles. -/
noncomputable def dkRaw (o cap : ℕ) (tags : ℕ → ℕ → Option Bool)
    (betaDraw uDraw : ℕ → ℕ → ℝ) : ℕ → ℕ → ℝ := fun r dv =>
  generate_sample (tags (r / cap % o) dv) (betaDraw r dv) (uDraw r dv)

/-- The raw matrix scaled into the problem bounds (the has_bounds branch). -/
noncomputable def dkScaled (o cap : ℕ) (tags : ℕ → ℕ → Option Bool)
    (betaDraw uDraw : ℕ → ℕ → ℝ) (xl xu : ℕ → ℝ) : ℕ → ℕ → ℝ := fun r dv =>
  xl dv + (xu dv - xl dv) * dkRaw o cap tags betaDraw uDraw r dv

/-- The scaled matrix normalised back to the unit cube for the diversity
comparison. -/
noncomputable def dkNormalized (o cap : ℕ) (tags : ℕ → ℕ → Option Bool)
    (betaDraw uDraw : ℕ → ℕ → ℝ) (xl xu : ℕ → ℝ) : ℕ → ℕ → ℝ := fun r dv =>
  (dkScaled o cap tags betaDraw uDraw xl xu r dv - xl dv) / (xu dv - xl dv)

/-- Embeds DomainKnowledgeInitialization._do for a problem with bounds: fill
an oversampled matrix, scale it into the bounds, normalise it back to the
unit cube, reduce it with the Solow-Polasky diversification at theta six and
the requested sample count, and rescale the chosen rows to the true
bounds. -/
noncomputable def dkInit_do (n o N d : ℕ) (tags : ℕ → ℕ → Option Bool)
    (betaDraw uDraw : ℕ → ℕ → ℝ) (xl xu : ℕ → ℝ) : List (List ℝ) :=
  let rows : List (List ℝ) :=
    (List.range (n * o * N)).map
      (fun r => (List.range d).map (dkNormalized o N tags betaDraw uDraw xl xu r))
  (solow_polasky_diversification rows 6 n).map
    (fun row => row.mapIdx (fun j z => xl j + (xu j - xl j) * z))

/-- Numeric encoding of the directionality tags used by the mutation (True
to one, False to minus one, anything else to zero). -/
def dkValue : Option Bool → ℝ
  | some true => 1
  | some false => -1
  | _ => 0

/-- The directional perturbation selected for an Increasing tag. -/
noncomputable def deltaqInc (x xl xu eta rand : ℝ) : ℝ :=
  1 - (1 - rand + rand * (1 - (xu - x) / (xu - xl)) ^ (eta + 1)) ^
    ((1 : ℝ) / (eta + 1))

/-- The directional perturbation selected for a Decreasing tag. -/
noncomputable def deltaqDec (x xl xu eta rand : ℝ) : ℝ :=
  -1 + (rand + (1 - rand) * (1 - (x - xl) / (xu - xl)) ^ (eta + 1)) ^
    ((1 : ℝ) / (eta + 1))

/-- Modelled from the spec: the pymoo helper mut_binomial used by the source
(external library code): a per-gene Bernoulli trial against the mutation
probability, with one forced gene per row when at_least_once is set.  The
Bernoulli draws and the forced column index are the mutRand and forced
oracles. -/
noncomputable def mut_binomial (prob : ℝ) (at_least_once : Bool)
    (mutRand : ℕ → ℕ → ℝ) (forced : ℕ → ℕ) (i j : ℕ) : Bool :=
  decide (mutRand i j < prob) || (at_least_once && decide (forced i = j))

/-- Modelled from the spec: the pymoo repair set_to_bounds_if_outside
(external library code): values below the lower bound are set to it, then
values above the upper bound are set to it. -/
noncomputable def set_to_bounds_if_outside (xl xu v : ℝ) : ℝ :=
  let a := if v < xl then xl else v
  if a > xu then xu else a

/-- Embeds modified_polynomial_mutation pointwise at individual i and gene j:
build the mutation mask (clearing columns with equal bounds), compute the
directional delta by the numeric tag, apply it scaled by the bound range,
push the result back into the bounds, keep the original gene where the mask
is off, and run the final out-of-bounds repair. -/
noncomputable def modified_polynomial_mutation (X : ℕ → ℕ → ℝ)
    (xl xu : ℕ → ℝ) (eta : ℕ → ℝ) (prob : ℝ) (dk : ℕ → Option Bool)
    (at_least_once : Bool) (mutRand : ℕ → ℕ → ℝ) (forced : ℕ → ℕ)
    (rand : ℕ → ℕ → ℝ) : ℕ → ℕ → ℝ := fun i j =>
  let msk := mut_binomial prob at_least_once mutRand forced i j
      && !(decide (xl j = xu j))
  let dq :=
    if dkValue (dk j) = 1 then
      deltaqInc (X i j) (xl j) (xu j) (eta i) (rand i j)
    else if dkValue (dk j) = -1 then
      deltaqDec (X i j) (xl j) (xu j) (eta i) (rand i j)
    else rand i j
  let y := X i j + dq * (xu j - xl j)
  let y := if y < xl j then xl j else y
  let y := if y > xu j then xu j else y
  let xp := if msk then y else X i j
  set_to_bounds_if_outside (xl j) (xu j) xp

/-! ## Auxiliary definitions used by the theorems -/

deriving instance DecidableEq for Except

/-- Keys that survive the serializer and parser unchanged: stripping and
equals-sign removal recover the key, the key is not the version header, the
written key line is not the parser sentinel, and the key spans no line
break. -/
abbrev cleanKey (k : String) : Prop :=
  pyDropChar '=' (pyStrip (k ++ "=\n")) = k ∧ k ≠ "EnergyPLAN version" ∧
    k ++ "=\n" ≠ "xxx" ∧ '\n' ∉ k.toList

/-- Values that survive the serializer and parser unchanged. -/
abbrev cleanVal (v : String) : Prop :=
  pyStrip (v ++ "\n") = v ∧ '\n' ∉ v.toList

/-! ## Dictionary lemmas -/

lemma dictKeys_any (d : PyDict) (k : String) :
    (d.any (fun p => p.1 = k) = true) ↔ k ∈ dictKeys d := by
  simp [dictKeys, List.any_eq_true, List.mem_map]

lemma dictSet_append (d : PyDict) (k v : String) (h : k ∉ dictKeys d) :
    dictSet d k v = d ++ [(k, v)] := by
  unfold dictSet
  rw [if_neg (fun hc => h ((dictKeys_any d k).mp hc))]

lemma dictGet_map_update (d : PyDict) (k v k' : String) (hne : k' ≠ k) :
    dictGet (d.map (fun p => if p.1 = k then (k, v) else p)) k' = dictGet d k' := by
  induction d with
  | nil => rfl
  | cons q d ih =>
    by_cases hq : q.1 = k
    · simp only [List.map_cons, if_pos hq, dictGet]
      rw [if_neg (fun e : k = k' => hne e.symm),
          if_neg (fun e : q.1 = k' => hne (e ▸ hq))]
      exact ih
    · simp only [List.map_cons, if_neg hq, dictGet]
      by_cases hq' : q.1 = k'
      · rw [if_pos hq', if_pos hq']
      · rw [if_neg hq', if_neg hq']; exact ih

lemma dictGet_append_single (d : PyDict) (k v k' : String) (hne : k' ≠ k) :
    dictGet (d ++ [(k, v)]) k' = dictGet d k' := by
  induction d with
  | nil =>
    simp only [List.nil_append, dictGet]
    rw [if_neg (fun e : k = k' => hne e.symm)]
  | cons q d ih =>
    simp only [List.cons_append, dictGet]
    by_cases hq : q.1 = k'
    · rw [if_pos hq, if_pos hq]
    · rw [if_neg hq, if_neg hq]; exact ih

lemma dictGet_dictSet_ne (d : PyDict) (k v k' : String) (hne : k' ≠ k) :
    dictGet (dictSet d k v) k' = dictGet d k' := by
  unfold dictSet
  by_cases h : d.any (fun p => p.1 = k) = true
  · rw [if_pos h]; exact dictGet_map_update d k v k' hne
  · rw [if_neg h]; exact dictGet_append_single d k v k' hne

lemma overlay_get_notMem (ov : PyDict) (data : PyDict) (k : String)
    (h : k ∉ dictKeys ov) : dictGet (overlay ov data) k = dictGet data k := by
  induction ov generalizing data with
  | nil => rfl
  | cons kv ov ih =>
    have hk : k ≠ kv.1 := by
      intro e; exact h (e ▸ List.mem_map_of_mem Prod.fst (List.mem_cons_self kv ov))
    have htail : k ∉ dictKeys ov := fun hm => h (List.mem_cons_of_mem _ hm)
    show dictGet (overlay ov (dictSet data kv.1 kv.2)) k = dictGet data k
    rw [ih (dictSet data kv.1 kv.2) htail, dictGet_dictSet_ne data kv.1 kv.2 k hk]

/-! ## Round-trip lemmas for the serializer -/

lemma parseInputLoop_cons_ne (r v : String) (rest : List String) (d : PyDict)
    (h : r ≠ "xxx") :
    parseInputLoop (r :: v :: rest) d =
      parseInputLoop rest (dictSet d (pyDropChar '=' (pyStrip r)) (pyStrip v)) := by
  simp only [parseInputLoop, if_neg h]

lemma parseInputLoop_dumpLines (l : PyDict) :
    ∀ d : PyDict, (dictKeys l).Nodup →
    (∀ p ∈ l, p.1 ∉ dictKeys d) →
    (∀ p ∈ l, cleanKey p.1 ∧ cleanVal p.2) →
    parseInputLoop (dumpLines l) d = .ok (d ++ l) := by
  induction l with
  | nil => intro d _ _ _; simp [dumpLines, parseInputLoop]
  | cons kv rest ih =>
    intro d hnd hdisj hclean
    obtain ⟨k, v⟩ := kv
    have hck := (hclean (k, v) (List.mem_cons_self _ _)).1
    have hcv := (hclean (k, v) (List.mem_cons_self _ _)).2
    rw [show dumpLines ((k, v) :: rest) = (k ++ "=\n") :: (v ++ "\n") :: dumpLines rest
        from by simp [dumpLines, hck.2.1]]
    rw [parseInputLoop_cons_ne _ _ _ _ hck.2.2.1]
    rw [hck.1, hcv.1]
    rw [dictSet_append d k v (hdisj (k, v) (List.mem_cons_self _ _))]
    have hnd' : (dictKeys rest).Nodup := by
      have : (k :: dictKeys rest).Nodup := by simpa [dictKeys] using hnd
      exact this.of_cons
    have hkrest : k ∉ dictKeys rest := by
      have : (k :: dictKeys rest).Nodup := by simpa [dictKeys] using hnd
      exact (List.nodup_cons.mp this).1
    have hdisj' : ∀ p ∈ rest, p.1 ∉ dictKeys (d ++ [(k, v)]) := by
      intro p hp
      rw [show dictKeys (d ++ [(k, v)]) = dictKeys d ++ [k] from by simp [dictKeys]]
      intro hmem
      rcases List.mem_append.mp hmem with h1 | h1
      · exact hdisj p (List.mem_cons_of_mem _ hp) h1
      · have hpk : p.1 = k := by simpa using h1
        exact hkrest (hpk ▸ List.mem_map_of_mem Prod.fst hp)
    have hclean' : ∀ p ∈ rest, cleanKey p.1 ∧ cleanVal p.2 :=
      fun p hp => hclean p (List.mem_cons_of_mem _ hp)
    rw [ih (d ++ [(k, v)]) hnd' hdisj' hclean']
    simp

/-! ## Claim C4

The claim asserts that dump_input leaves the template mapping unchanged,
performing the overlay on a copy.  The source mutates the template dictionary
in place (for k, v in input_dict.items(): data[k] = v), so the claim fails;
what does hold is that after the call the template equals the overlay of the
overrides onto its previous state, and entries not named in the overrides
keep their values. -/

/-- C4 counterexample: with template a maps to one and override a maps to
two, the template object after dump_input is not the original template: the
overlay is performed in place, not on a copy. -/
theorem dump_input_template_mutated :
    (dump_input [("a", "2")] [("a", "1")]).1 ≠ [("a", "1")] := by decide

/-- C4 (amended): after dump_input returns, the template equals the in-place
overlay of the overrides onto it, and every template entry whose key is not
named in the overrides retains its original value. -/
theorem dump_input_overlay_in_place (input_dict data : PyDict) :
    (dump_input input_dict data).1 = overlay input_dict data ∧
    ∀ k, k ∉ dictKeys input_dict →
      dictGet (dump_input input_dict data).1 k = dictGet data k :=
  ⟨rfl, fun k hk => overlay_get_notMem input_dict data k hk⟩

/-- Witness for C4 at a concrete template and override set. -/
theorem dump_input_overlay_in_place_witness :
    (dump_input [("a", "2")] [("b", "7")]).1 = overlay [("a", "2")] [("b", "7")] ∧
    dictGet (dump_input [("a", "2")] [("b", "7")]).1 "b" = dictGet [("b", "7")] "b" :=
  ⟨(dump_input_overlay_in_place [("a", "2")] [("b", "7")]).1,
   (dump_input_overlay_in_place [("a", "2")] [("b", "7")]).2 "b" (by decide)⟩

/-! ## Claim C5

The round-trip direction of the claim holds, but the unknown-key direction
fails: dump_input silently appends an override key absent from the template
instead of raising an error. -/

/-- C5 counterexample: the override key b is absent from the template, yet
serialization succeeds and the re-read artifact contains the foreign key;
no error is raised. -/
theorem dump_input_unknown_key_accepted :
    parse_input (dump_input [("b", "2")] [("a", "1")]).2 =
      .ok [("EnergyPLAN version", "698"), ("a", "1"), ("b", "2")] ∧
    "b" ∉ dictKeys [("a", "1")] := by decide

/-- C5 (amended): for overlaid entries with distinct serializer-stable keys,
writing the artifact with dump_input and re-reading it with parse_input
yields exactly the version header followed by the template entries with the
override values applied (unknown override keys are appended, not
rejected). -/
theorem dump_parse_round_trip (ov data : PyDict)
    (hnd : (dictKeys (overlay ov data)).Nodup)
    (hclean : ∀ p ∈ overlay ov data, cleanKey p.1 ∧ cleanVal p.2) :
    parse_input (dump_input ov data).2 =
      .ok (("EnergyPLAN version", "698") :: overlay ov data) := by
  show parseInputLoop
    ("EnergyPLAN version\n" :: "698\n" :: dumpLines (overlay ov data)) [] = _
  rw [parseInputLoop_cons_ne _ _ _ _ (by decide)]
  rw [show dictSet [] (pyDropChar '=' (pyStrip "EnergyPLAN version\n")) (pyStrip "698\n")
      = [("EnergyPLAN version", "698")] from by decide]
  rw [parseInputLoop_dumpLines (overlay ov data) [("EnergyPLAN version", "698")] hnd
      (fun p hp => by
        have := (hclean p hp).1.2.1
        simp [dictKeys]
        exact this)
      hclean]
  simp

/-- Witness for C5: a concrete template with one overridden and one retained
entry round-trips to the header plus the overlaid entries. -/
theorem dump_parse_round_trip_witness :
    parse_input (dump_input [("a", "2")] [("a", "1"), ("c", "3")]).2 =
      .ok (("EnergyPLAN version", "698") ::
        overlay [("a", "2")] [("a", "1"), ("c", "3")]) :=
  dump_parse_round_trip _ _ (by decide) (by decide)

/-! ## Lemmas about the fallible accumulation loop -/

lemma pyMap_congr (l : List α) (f g : α → Except PyErr β)
    (h : ∀ a ∈ l, f a = g a) : pyMap f l = pyMap g l := by
  induction l with
  | nil => rfl
  | cons a l ih =>
    simp only [pyMap, h a (List.mem_cons_self _ _),
      ih (fun b hb => h b (List.mem_cons_of_mem _ hb))]

lemma pyMap_ok_length (l : List α) (f : α → Except PyErr β)
    (bs : List β) (h : pyMap f l = .ok bs) : bs.length = l.length := by
  induction l generalizing bs with
  | nil => simp only [pyMap] at h; cases h; rfl
  | cons a l ih =>
    simp only [pyMap] at h
    cases hfa : f a with
    | error e => rw [hfa] at h; exact absurd h (by simp)
    | ok b =>
      rw [hfa] at h
      cases hml : pyMap f l with
      | error e => rw [hml] at h; exact absurd h (by simp)
      | ok cs =>
        rw [hml] at h
        cases h
        simp [ih cs hml]

/-! ## Claim C1

The positive half of the claim holds conditionally: when the results folder
holds exactly one artifact per individual under the indexed naming scheme,
the assembled matrix has one row per individual in input order.  The
fatality half fails: the row count of find_values is the number of result
files in the folder, never compared against the population size, so a batch
whose trailing result artifacts are missing silently yields a shorter
matrix. -/

/-- C1 counterexample: a two-individual evaluation whose simulator left only
the artifact of index zero assembles a one-row matrix and reports no error:
the row-count mismatch with the population size is silently accepted. -/
theorem evaluate_row_count_mismatch_silent :
    evaluate_F [[("a", "1")], [("a", "2")]] [("a", "0")] 0
      [("input0.txt.txt", ["K\t42\n"])] [.bare "K"] = .ok [[(42 : ℚ)]] ∧
    ([[(42 : ℚ)]] : List (List ℚ)).length ≠
      ([[("a", "1")], [("a", "2")]] : List PyDict).length := by decide

/-- C1 (amended): when the results folder holds exactly as many txt files as
individuals and the artifact for index i is the simulator result of
individual i, the evaluation assembles row i from artifact i in input order,
and any successfully returned matrix has exactly one row per individual.
The row count comes from the folder, not from the population, and is not
checked against it. -/
theorem evaluate_rows_match_artifacts (pop : List PyDict) (template : PyDict)
    (exitCode : ℤ) (docs : List (List String)) (simResults : Folder)
    (objectives : List KeyQ)
    (hn : 0 < pop.length)
    (hcount : (simResults.filter (fun f => strEndsWith f.1 ".txt")).length
      = pop.length)
    (hlook : ∀ i < pop.length,
      simResults.lookup (resultName i) = some (docs.getD i [])) :
    evaluate_F pop template exitCode simResults objectives =
      pyMap (fun i => find_objectives (docs.getD i []) objectives)
        (List.range pop.length) ∧
    ∀ rows, evaluate_F pop template exitCode simResults objectives = .ok rows →
      rows.length = pop.length := by
  have hstep : ∀ i ∈ List.range pop.length,
      (fun i => match simResults.lookup (resultName i) with
        | none => Except.error PyErr.fileNotFound
        | some doc => find_objectives doc objectives) i =
      (fun i => find_objectives (docs.getD i []) objectives) i := by
    intro i hi
    simp only
    rw [hlook i (List.mem_range.mp hi)]
  have hmain : evaluate_F pop template exitCode simResults objectives =
      pyMap (fun i => find_objectives (docs.getD i []) objectives)
        (List.range pop.length) := by
    show find_values simResults objectives = _
    unfold find_values
    rw [hcount]
    rw [pyMap_congr (List.range pop.length) _ _ hstep]
    cases hres : pyMap (fun i => find_objectives (docs.getD i []) objectives)
        (List.range pop.length) with
    | error e => rfl
    | ok rows =>
      have hlen : rows.length = pop.length :=
        (pyMap_ok_length _ _ _ hres).trans (List.length_range _)
      have hne : rows.isEmpty = false := by
        cases rows with
        | nil => simp at hlen; omega
        | cons r rs => rfl
      simp [hne]
  refine ⟨hmain, fun rows hr => ?_⟩
  rw [hmain] at hr
  exact (pyMap_ok_length _ _ _ hr).trans (List.length_range _)

/-- Witness for C1 at a nominal two-individual batch with both result
artifacts present. -/
theorem evaluate_rows_match_artifacts_witness :
    evaluate_F [[("a", "1")], [("a", "2")]] [("a", "0")] 0
      [("input0.txt.txt", ["K\t42\n"]), ("input1.txt.txt", ["K\t7\n"])]
      [.bare "K"] =
      pyMap (fun i => find_objectives
        ([["K\t42\n"], ["K\t7\n"]].getD i []) [.bare "K"])
        (List.range ([[("a", "1")], [("a", "2")]] : List PyDict).length) ∧
    ∀ rows, evaluate_F [[("a", "1")], [("a", "2")]] [("a", "0")] 0
      [("input0.txt.txt", ["K\t42\n"]), ("input1.txt.txt", ["K\t7\n"])]
      [.bare "K"] = .ok rows →
      rows.length = ([[("a", "1")], [("a", "2")]] : List PyDict).length :=
  evaluate_rows_match_artifacts _ _ _ _ _ _ (by decide) (by decide) (by decide)

/-! ## Claim C3

The claim asserts that a non-zero simulator exit code raises a fatal batch
error before any matrix assembly.  The source calls subprocess.run without
the check flag and discards the returned CompletedProcess, so the exit code
is never inspected: evaluation always proceeds to find_values over whatever
artifacts the results folder holds. -/

/-- C3 counterexample: the simulator exits with status one, yet the batch
evaluation assembles a quantity matrix from the (partial) results folder and
returns it without error. -/
theorem spool_nonzero_exit_assembles :
    evaluate_F [[("b", "5")], [("b", "6")]] [("b", "0")] 1
      [("input0.txt.txt", ["J\t7\n"])] [.bare "J"] = .ok [[(7 : ℚ)]] ∧
    (1 : ℤ) ≠ 0 := by decide

/-- C3 (amended): the exit status of the spool invocation is recorded in the
discarded CompletedProcess and has no effect on the evaluation, which always
proceeds to matrix assembly over the results folder. -/
theorem spool_exit_code_ignored (pop : List PyDict) (template : PyDict)
    (e1 e2 : ℤ) (simResults : Folder) (objectives : List KeyQ) :
    evaluate_F pop template e1 simResults objectives =
      evaluate_F pop template e2 simResults objectives ∧
    evaluate_F pop template e1 simResults objectives =
      find_values simResults objectives ∧
    (execute_energyplan_spool ((List.range pop.length).map
      (fun i => "input" ++ toString i ++ ".txt")) e1).returncode = e1 :=
  ⟨rfl, rfl, rfl⟩

lemma dropLines_spec (n : ℕ) (l : List String) :
    dropLines n l = if n ≤ l.length then .ok (l.drop n) else .error .stopIteration := by
  induction n generalizing l with
  | zero => simp [dropLines]
  | succ n ih =>
    cases l with
    | nil => simp [dropLines]
    | cons a l =>
      simp only [dropLines, ih l, List.length_cons, List.drop_succ_cons]
      by_cases h : n ≤ l.length
      · rw [if_pos h, if_pos (by omega)]
      · rw [if_neg h, if_neg (by omega)]

lemma scanRow_absent (rk : String) (j : ℕ) :
    ∀ (fuel i : ℕ) (pool : List String),
    (∀ l ∈ pool.take fuel, pyIn rk l = false) →
    scanRow rk j fuel i pool = .ok none ∨
      ∃ e, scanRow rk j fuel i pool = .error e := by
  intro fuel
  induction fuel with
  | zero => intro i pool _; left; rfl
  | succ fuel ih =>
    intro i pool habs
    cases pool with
    | nil => right; exact ⟨.stopIteration, rfl⟩
    | cons l rest =>
      have hl : pyIn rk l = false := habs l (by simp [List.take_succ_cons])
      simp only [scanRow, hl]
      exact ih (i + 1) rest (fun x hx => habs x (by simp [List.take_succ_cons, hx]))

lemma findPosTail_row_absent (rk ck : String) (rest : List String)
    (habs : ∀ l ∈ (rest.drop 2).take 22, pyIn rk l = false) :
    findPosTail (.ok rk) (.ok ck) rest = .ok none ∨
      ∃ e, findPosTail (.ok rk) (.ok ck) rest = .error e := by
  cases rest with
  | nil => right; exact ⟨.stopIteration, rfl⟩
  | cons l1 rest1 =>
    cases rest1 with
    | nil => right; exact ⟨.stopIteration, rfl⟩
    | cons l2 rest2 =>
      simp only [findPosTail]
      cases hch : combineHeader (splitTab l1) (splitTab l2) with
      | error e =>
        right
        exact ⟨e, rfl⟩
      | ok ks =>
        rcases scanRow_absent rk (findColDefault ck ks) 22 82 rest2
          (by simpa using habs) with h | ⟨e, h⟩
        · left; exact h
        · right; exact ⟨e, h⟩

lemma find_position_pair_row_absent (lines : List String) (rk ck : String)
    (habs : ∀ l ∈ (lines.drop 82).take 22, pyIn rk l = false) :
    find_position lines (.pair rk ck) = .ok none ∨
      ∃ e, find_position lines (.pair rk ck) = .error e := by
  by_cases h80 : 80 ≤ lines.length
  · have hdl : dropLines 80 lines = .ok (lines.drop 80) := by
      rw [dropLines_spec, if_pos h80]
    have hfp : find_position lines (.pair rk ck) =
        findPosTail (.ok rk) (.ok ck) (lines.drop 80) := by
      show Except.bind (dropLines 80 lines)
        (fun rest => findPosTail (.ok rk) (.ok ck) rest) = _
      rw [hdl]
      rfl
    rw [hfp]
    refine findPosTail_row_absent rk ck (lines.drop 80) ?_
    intro l hl
    refine habs l ?_
    rwa [List.drop_drop, show (2 + 80 : ℕ) = 82 from by norm_num] at hl
  · have hdl : dropLines 80 lines = .error .stopIteration := by
      rw [dropLines_spec, if_neg h80]
    right
    refine ⟨.stopIteration, ?_⟩
    show Except.bind (dropLines 80 lines)
      (fun rest => findPosTail (.ok rk) (.ok ck) rest) = _
    rw [hdl]
    rfl

lemma find_objectives_single_fatal (lines : List String) (k : KeyQ)
    (h : find_position lines k = .ok none ∨
      ∃ e, find_position lines k = .error e) :
    ∃ e, find_objectives lines [k] = .error e := by
  rcases h with h | ⟨e, h⟩
  · exact ⟨.valueError, by simp [find_objectives, find_positions, pyMap, h]⟩
  · exact ⟨e, by simp [find_objectives, find_positions, pyMap, h]⟩

/-- C6 (amended): a pair key whose row label occurs in none of the scanned
lines is fatal: extraction raises an uncaught exception (directly, or through
the stacking of the returned None) and returns no value.  The counterexample
shows the column dimension is not handled this way. -/
theorem extraction_missing_row_fatal (lines : List String) (rk ck : String)
    (habs : ∀ l ∈ (lines.drop 82).take 22, pyIn rk l = false) :
    ∃ e, find_objectives lines [.pair rk ck] = .error e :=
  find_objectives_single_fatal lines (.pair rk ck)
    (find_position_pair_row_absent lines rk ck habs)

/-- Witness for C6 at a concrete report whose scanned region does not contain
the requested row label. -/
theorem extraction_missing_row_fatal_witness :
    ∃ e, find_objectives
      (List.replicate 80 "\n" ++ ["A\tB\n", "C\tD\n", "ROW\t42\n"])
      [.pair "NOROW" "B D"] = .error e :=
  extraction_missing_row_fatal _ _ _ (by decide)

/-- C6 counterexample: the requested column label NOCOL occurs in no joined
column header of the report, yet extraction silently falls back to the last
column and returns the value of a cell that does not match the requested
key, instead of failing. -/
theorem extraction_column_fallback_value :
    find_objectives (List.replicate 80 "\n" ++ ["A\tB\n", "C\tD\n", "ROW\t42\n"])
      [.pair "ROW" "NOCOL"] = .ok [(42 : ℚ)] ∧
    pyIn "NOCOL" "A C" = false ∧ pyIn "NOCOL" "B D" = false := by decide


lemma mem_of_mem_eraseIdx2 {l : List α} {i : ℕ} {a : α}
    (h : a ∈ l.eraseIdx i) : a ∈ l := by
  rw [List.eraseIdx_eq_take_drop_succ] at h
  rcases List.mem_append.mp h with h1 | h1
  · exact List.take_subset i l h1
  · exact List.drop_subset (i + 1) l h1

lemma spLoop_length (theta : ℝ) :
    ∀ (k : ℕ) (Xp pool : List (List ℝ)),
    (spLoop theta k Xp pool).1.length = Xp.length + k := by
  intro k
  induction k with
  | zero => intro Xp pool; rfl
  | succ k ih =>
    intro Xp pool
    show (spLoop theta k _ _).1.length = _
    rw [ih]
    simp
    omega

lemma solow_length (X : List (List ℝ)) (theta : ℝ) (size : ℕ)
    (hX : X ≠ []) (hs : 1 ≤ size) :
    (solow_polasky_diversification X theta size).length = size + 1 := by
  cases X with
  | nil => exact absurd rfl hX
  | cons x0 rest =>
    show (spLoop theta (size - 1) [x0, _] _).1.length = size + 1
    rw [spLoop_length]
    simp
    omega

/-! ## Claim C2

The claim (and the docstring of the source function) promise exactly size
selected rows.  The seed phase already selects two rows (the first row and
the row farthest from it) and the greedy loop for i in range(1, size) adds
size minus one more, so the function returns size plus one rows whenever its
own assertion (pool strictly larger than size) admits the call. -/

/-- C2: at the failing input (four one-dimensional rows, theta one, size
two, satisfying the source assertion that the pool exceeds the size) the
function returns three rows where its docstring and the claim promise two:
the seed row, the farthest row, and one more from the greedy loop. -/
theorem solow_polasky_size_plus_one :
    (solow_polasky_diversification [[0], [1], [2], [3]] 1 2).length = 3 ∧
    2 < ([[0], [1], [2], [3]] : List (List ℝ)).length :=
  ⟨solow_length _ _ _ (by simp) (by norm_num), by simp⟩

lemma spLoop_preserve (theta : ℝ) (P : List ℝ → Prop) (hnil : P []) :
    ∀ (k : ℕ) (Xp pool : List (List ℝ)),
    (∀ r ∈ Xp, P r) → (∀ r ∈ pool, P r) →
    ∀ r ∈ (spLoop theta k Xp pool).1, P r := by
  intro k
  induction k with
  | zero => intro Xp pool hXp _ r hr; exact hXp r hr
  | succ k ih =>
    intro Xp pool hXp hpool r hr
    refine ih (Xp ++ [pool.getD (argmaxIdx (spScore theta Xp) pool) []])
      (pool.eraseIdx (argmaxIdx (spScore theta Xp) pool)) ?_ ?_ r hr
    · intro q hq
      rcases List.mem_append.mp hq with h1 | h1
      · exact hXp q h1
      · have hq1 : q = pool.getD (argmaxIdx (spScore theta Xp) pool) [] := by
          simpa using h1
        subst hq1
        by_cases hj : argmaxIdx (spScore theta Xp) pool < pool.length
        · rw [List.getD_eq_getElem _ _ hj]
          exact hpool _ (List.getElem_mem hj)
        · rw [List.getD_eq_default _ _ (by omega)]
          exact hnil
    · intro q hq
      exact hpool q (mem_of_mem_eraseIdx2 hq)

lemma solow_preserve (X : List (List ℝ)) (theta : ℝ) (size : ℕ)
    (P : List ℝ → Prop) (hnil : P []) (hX : ∀ r ∈ X, P r) :
    ∀ r ∈ solow_polasky_diversification X theta size, P r := by
  cases X with
  | nil => intro r hr; exact absurd hr (by simp [solow_polasky_diversification])
  | cons x0 rest =>
    intro r hr
    refine spLoop_preserve theta P hnil (size - 1) _ _ ?_ ?_ r hr
    · intro q hq
      rcases List.mem_cons.mp hq with hq | hq
      · subst hq; exact hX q (List.mem_cons_self _ _)
      · have hq1 : q = rest.getD (argmaxIdx (fun y => eDist y x0) rest) [] := by
          simpa using hq
        subst hq1
        by_cases hj : argmaxIdx (fun y => eDist y x0) rest < rest.length
        · rw [List.getD_eq_getElem _ _ hj]
          exact hX _ (List.mem_cons_of_mem _ (List.getElem_mem hj))
        · rw [List.getD_eq_default _ _ (by omega)]
          exact hnil
    · intro q hq
      exact hX q (List.mem_cons_of_mem _ (mem_of_mem_eraseIdx2 hq))


/-! ## Real-power range lemmas for the biased draws -/

lemma rpow_unit_interval (b e : ℝ) (hb0 : 0 ≤ b) (hb1 : b ≤ 1) (he : 0 ≤ e) :
    0 ≤ b ^ e ∧ b ^ e ≤ 1 :=
  ⟨Real.rpow_nonneg hb0 e, Real.rpow_le_one hb0 hb1 he⟩

lemma rpow_convex_combo (b e c1 c2 : ℝ) (hb0 : 0 ≤ b) (hb1 : b ≤ 1)
    (he : 1 ≤ e) (hc1 : 0 ≤ c1) (hc2 : 0 ≤ c2) (hsum : c1 + c2 = 1) :
    b ≤ (c1 + c2 * b ^ e) ^ (1 / e) ∧ (c1 + c2 * b ^ e) ^ (1 / e) ≤ 1 := by
  have he0 : (0 : ℝ) < e := lt_of_lt_of_le one_pos he
  have hA0 : 0 ≤ b ^ e := Real.rpow_nonneg hb0 e
  have hA1 : b ^ e ≤ 1 := Real.rpow_le_one hb0 hb1 he0.le
  have hinner0 : 0 ≤ c1 + c2 * b ^ e := by nlinarith
  have hinner1 : c1 + c2 * b ^ e ≤ 1 := by nlinarith
  have hinnerA : b ^ e ≤ c1 + c2 * b ^ e := by nlinarith
  constructor
  · have h1 : (b ^ e) ^ (1 / e) ≤ (c1 + c2 * b ^ e) ^ (1 / e) :=
      Real.rpow_le_rpow hA0 hinnerA (by positivity)
    have h2 : (b ^ e) ^ (1 / e) = b := by
      rw [← Real.rpow_mul hb0, mul_one_div_cancel (ne_of_gt he0), Real.rpow_one]
    linarith
  · exact Real.rpow_le_one hinner0 hinner1 (by positivity)

lemma generate_sample_unit (tag : Option Bool) (beta u : ℝ)
    (hb : 0 ≤ beta) (h0 : 0 ≤ u) (h1 : u ≤ 1) :
    0 ≤ generate_sample tag beta u ∧ generate_sample tag beta u ≤ 1 := by
  have hexp : (0 : ℝ) ≤ 1 / (beta + 1) := by positivity
  cases tag with
  | none => exact ⟨h0, h1⟩
  | some b =>
    cases b with
    | true =>
      exact ⟨Real.rpow_nonneg h0 _, Real.rpow_le_one h0 h1 hexp⟩
    | false =>
      have h0' : (0 : ℝ) ≤ 1 - u := by linarith
      have h1' : 1 - u ≤ 1 := by linarith
      constructor
      · have := Real.rpow_le_one h0' h1' hexp
        show 0 ≤ 1 - (1 - u) ^ ((1 : ℝ) / (beta + 1))
        linarith
      · have := Real.rpow_nonneg h0' ((1 : ℝ) / (beta + 1))
        show 1 - (1 - u) ^ ((1 : ℝ) / (beta + 1)) ≤ 1
        linarith

/-! ## Bound lemmas for the sampler and the mutation -/

lemma dkNormalized_eq_raw (o cap : ℕ) (tags : ℕ → ℕ → Option Bool)
    (betaDraw uDraw : ℕ → ℕ → ℝ) (xl xu : ℕ → ℝ) (r dv : ℕ)
    (hne : xu dv - xl dv ≠ 0) :
    dkNormalized o cap tags betaDraw uDraw xl xu r dv =
      dkRaw o cap tags betaDraw uDraw r dv := by
  unfold dkNormalized dkScaled
  rw [show xl dv + (xu dv - xl dv) * dkRaw o cap tags betaDraw uDraw r dv - xl dv
      = (xu dv - xl dv) * dkRaw o cap tags betaDraw uDraw r dv from by ring,
    mul_div_cancel_left₀ _ hne]

lemma set_to_bounds_mem (xl xu v : ℝ) (h : xl ≤ xu) :
    xl ≤ set_to_bounds_if_outside xl xu v ∧
    set_to_bounds_if_outside xl xu v ≤ xu := by
  unfold set_to_bounds_if_outside
  by_cases h1 : v < xl
  · rw [if_pos h1]
    by_cases h2 : xl > xu
    · rw [if_pos h2]; exact ⟨h, le_refl _⟩
    · rw [if_neg h2]; exact ⟨le_refl _, not_lt.mp h2⟩
  · rw [if_neg h1]
    by_cases h2 : v > xu
    · rw [if_pos h2]; exact ⟨h, le_refl _⟩
    · rw [if_neg h2]; exact ⟨not_lt.mp h1, not_lt.mp h2⟩

lemma mpm_bounds (X : ℕ → ℕ → ℝ) (xl xu eta : ℕ → ℝ) (prob : ℝ)
    (dk : ℕ → Option Bool) (alo : Bool) (mutRand : ℕ → ℕ → ℝ)
    (forced : ℕ → ℕ) (rand : ℕ → ℕ → ℝ) (i j : ℕ) (h : xl j ≤ xu j) :
    xl j ≤ modified_polynomial_mutation X xl xu eta prob dk alo mutRand
      forced rand i j ∧
    modified_polynomial_mutation X xl xu eta prob dk alo mutRand
      forced rand i j ≤ xu j := by
  unfold modified_polynomial_mutation
  exact set_to_bounds_mem _ _ _ h

lemma dkInit_bounds (n o N d : ℕ) (tags : ℕ → ℕ → Option Bool)
    (betaDraw uDraw : ℕ → ℕ → ℝ) (xl xu : ℕ → ℝ)
    (hbd : ∀ j, xl j < xu j) (hbeta : ∀ r dv, 0 ≤ betaDraw r dv)
    (hu : ∀ r dv, 0 ≤ uDraw r dv ∧ uDraw r dv ≤ 1) :
    ∀ row ∈ dkInit_do n o N d tags betaDraw uDraw xl xu,
    ∀ (j : ℕ) (hj : j < row.length),
      xl j ≤ row.get ⟨j, hj⟩ ∧ row.get ⟨j, hj⟩ ≤ xu j := by
  intro row hrow j hj
  unfold dkInit_do at hrow
  obtain ⟨q, hq, rfl⟩ := List.mem_map.mp hrow
  have hP : ∀ r ∈ solow_polasky_diversification
      ((List.range (n * o * N)).map
        (fun r => (List.range d).map (dkNormalized o N tags betaDraw uDraw xl xu r)))
      6 n,
      ∀ (t : ℕ) (ht : t < r.length), 0 ≤ r.get ⟨t, ht⟩ ∧ r.get ⟨t, ht⟩ ≤ 1 := by
    refine solow_preserve _ _ _
      (fun r => ∀ (t : ℕ) (ht : t < r.length), 0 ≤ r.get ⟨t, ht⟩ ∧ r.get ⟨t, ht⟩ ≤ 1)
      ?_ ?_
    · intro t ht
      simp at ht
    · intro r hr t ht
      obtain ⟨ridx, hridx, rfl⟩ := List.mem_map.mp hr
      have hval : ((List.range d).map
          (dkNormalized o N tags betaDraw uDraw xl xu ridx)).get ⟨t, ht⟩ =
          dkNormalized o N tags betaDraw uDraw xl xu ridx t := by
        simp
      rw [hval]
      rw [dkNormalized_eq_raw _ _ _ _ _ _ _ _ _
        (sub_ne_zero.mpr (ne_of_gt (hbd t)))]
      exact generate_sample_unit _ _ _ (hbeta _ _) (hu _ _).1 (hu _ _).2
  have hqlen : j < q.length := by
    have : (q.mapIdx (fun j z => xl j + (xu j - xl j) * z)).length = q.length := by
      simp
    omega
  have hget : (q.mapIdx (fun j z => xl j + (xu j - xl j) * z)).get ⟨j, hj⟩ =
      xl j + (xu j - xl j) * q.get ⟨j, hqlen⟩ :=
    List.get_mapIdx q _ j hqlen hj
  rw [hget]
  obtain ⟨hz0, hz1⟩ := hP q hq j hqlen
  have := hbd j
  constructor
  · nlinarith
  · nlinarith

/-! ## Claim C7

Every gene produced by the sampler lies within the problem bounds (the
biased draws live in the unit interval, the scaling and normalisation cancel
on non-degenerate bounds, the diversification only selects existing rows,
and the final rescale maps the unit interval onto the bounds), and every
gene produced by the mutation lies within the bounds because the final
repair clamps out-of-bound values to the violated bound.  The sampler part
is stated for strictly separated bounds: on a degenerate coordinate with
equal bounds the source divides zero by zero, a floating-point artifact
outside the real-number model. -/

/-- C7: bound invariant for both operators.  Every gene of every Decision
Vector returned by DomainKnowledgeInitialization._do lies in the closed
bound interval (given the unit-interval random draws and non-negative bias
strengths), and every gene returned by modified_polynomial_mutation lies in
the closed bound interval, with out-of-bound values clamped by the final
repair rather than discarded. -/
theorem operators_bound_invariant :
    (∀ (n o N d : ℕ) (tags : ℕ → ℕ → Option Bool) (betaDraw uDraw : ℕ → ℕ → ℝ)
      (xl xu : ℕ → ℝ), (∀ j, xl j < xu j) → (∀ r dv, 0 ≤ betaDraw r dv) →
      (∀ r dv, 0 ≤ uDraw r dv ∧ uDraw r dv ≤ 1) →
      ∀ row ∈ dkInit_do n o N d tags betaDraw uDraw xl xu,
      ∀ (j : ℕ) (hj : j < row.length),
        xl j ≤ row.get ⟨j, hj⟩ ∧ row.get ⟨j, hj⟩ ≤ xu j) ∧
    (∀ (X : ℕ → ℕ → ℝ) (xl xu eta : ℕ → ℝ) (prob : ℝ) (dk : ℕ → Option Bool)
      (alo : Bool) (mutRand : ℕ → ℕ → ℝ) (forced : ℕ → ℕ) (rand : ℕ → ℕ → ℝ)
      (i j : ℕ), xl j ≤ xu j →
      xl j ≤ modified_polynomial_mutation X xl xu eta prob dk alo mutRand
        forced rand i j ∧
      modified_polynomial_mutation X xl xu eta prob dk alo mutRand
        forced rand i j ≤ xu j) :=
  ⟨fun n o N d tags bd ud xl xu h1 h2 h3 =>
      dkInit_bounds n o N d tags bd ud xl xu h1 h2 h3,
   fun X xl xu eta prob dk alo mr fc rd i j h =>
      mpm_bounds X xl xu eta prob dk alo mr fc rd i j h⟩

/-- Witness for C7 at unit bounds with concrete draws for both operators. -/
theorem operators_bound_invariant_witness :
    (∀ row ∈ dkInit_do 1 1 1 1 (fun _ _ => none) (fun _ _ => 0)
        (fun _ _ => (1/2 : ℝ)) (fun _ => 0) (fun _ => 1),
      ∀ (j : ℕ) (hj : j < row.length),
        (0 : ℝ) ≤ row.get ⟨j, hj⟩ ∧ row.get ⟨j, hj⟩ ≤ 1) ∧
    ((0 : ℝ) ≤ modified_polynomial_mutation (fun _ _ => (1/2 : ℝ)) (fun _ => 0)
        (fun _ => 1) (fun _ => 20) (9/10) (fun _ => some true) false
        (fun _ _ => (1/2 : ℝ)) (fun _ => 0) (fun _ _ => (1/2 : ℝ)) 0 0 ∧
      modified_polynomial_mutation (fun _ _ => (1/2 : ℝ)) (fun _ => 0)
        (fun _ => 1) (fun _ => 20) (9/10) (fun _ => some true) false
        (fun _ _ => (1/2 : ℝ)) (fun _ => 0) (fun _ _ => (1/2 : ℝ)) 0 0 ≤ 1) :=
  ⟨operators_bound_invariant.1 1 1 1 1 (fun _ _ => none) (fun _ _ => 0)
      (fun _ _ => (1/2 : ℝ)) (fun _ => 0) (fun _ => 1) (fun _ => by norm_num)
      (fun _ _ => le_refl 0) (fun _ _ => by norm_num),
   operators_bound_invariant.2 (fun _ _ => (1/2 : ℝ)) (fun _ => 0) (fun _ => 1)
      (fun _ => 20) (9/10) (fun _ => some true) false (fun _ _ => (1/2 : ℝ))
      (fun _ => 0) (fun _ _ => (1/2 : ℝ)) 0 0 (by norm_num)⟩

/-! ## Claim C8

generate_sample dispatches on the tri-state directionality tag exactly as
the spec describes: an Increasing tag applies the power transform toward the
upper bound, a Decreasing tag the mirror transform toward the lower bound,
and a Neutral tag returns the plain uniform draw. -/

/-- C8: the per-gene draw of the sampler is determined by the tag: True
yields the transform toward one, False its mirror toward zero, None the
plain draw; these are the three tag values the models supply. -/
theorem generate_sample_directional_forms (beta u : ℝ) :
    generate_sample (some true) beta u = u ^ ((1 : ℝ) / (beta + 1)) ∧
    generate_sample (some false) beta u = 1 - (1 - u) ^ ((1 : ℝ) / (beta + 1)) ∧
    generate_sample none beta u = u :=
  ⟨rfl, rfl, rfl⟩

/-! ## Claim C9

With prob zero and at_least_once false the mutation mask is empty and the
final repair leaves an in-bounds population untouched, so the operator is
the identity.  With at_least_once true the claim fails: one gene per row is
forced to mutate even at prob zero.  Independently, DomainKnowledgeMutation
_do overwrites the probability with the annealed schedule one minus n_gen
over n_max_gen, ignoring the prob argument entirely. -/

/-- C9 counterexample: at prob zero but with at_least_once set, the forced
gene of the row is still mutated (the neutral delta moves the gene from one
half to one), so the population is not returned unchanged. -/
theorem mutation_prob_zero_forced_gene :
    modified_polynomial_mutation (fun _ _ => (1/2 : ℝ)) (fun _ => 0)
      (fun _ => 1) (fun _ => 20) 0 (fun _ => none) true
      (fun _ _ => (1/2 : ℝ)) (fun _ => 0) (fun _ _ => (1/2 : ℝ)) 0 0
      ≠ (fun _ _ => (1/2 : ℝ)) 0 0 := by
  unfold modified_polynomial_mutation mut_binomial dkValue
    set_to_bounds_if_outside
  norm_num

/-- C9 (amended): for every in-bounds population and every directionality
table, the mutation with prob zero and at_least_once false returns every
gene unchanged. -/
theorem mutation_prob_zero_identity (X : ℕ → ℕ → ℝ) (xl xu eta : ℕ → ℝ)
    (dk : ℕ → Option Bool) (mutRand : ℕ → ℕ → ℝ) (forced : ℕ → ℕ)
    (rand : ℕ → ℕ → ℝ) (i j : ℕ)
    (hX0 : xl j ≤ X i j) (hX1 : X i j ≤ xu j)
    (hmr : 0 ≤ mutRand i j) :
    modified_polynomial_mutation X xl xu eta 0 dk false mutRand forced rand i j
      = X i j := by
  unfold modified_polynomial_mutation mut_binomial
  rw [show (decide (mutRand i j < (0 : ℝ))) = false from
    decide_eq_false (not_lt.mpr hmr)]
  simp only [Bool.false_and, Bool.or_false, Bool.false_or, Bool.and_false,
    Bool.false_eq_true, if_false]
  unfold set_to_bounds_if_outside
  rw [if_neg (not_lt.mpr hX0), if_neg (not_lt.mpr hX1)]

/-- Witness for C9 at a concrete in-bounds gene. -/
theorem mutation_prob_zero_identity_witness :
    modified_polynomial_mutation (fun _ _ => (1/2 : ℝ)) (fun _ => 0)
      (fun _ => 1) (fun _ => 20) 0 (fun _ => none) false
      (fun _ _ => (1/2 : ℝ)) (fun _ => 0) (fun _ _ => (1/2 : ℝ)) 0 0
      = (fun _ _ => (1/2 : ℝ)) 0 0 :=
  mutation_prob_zero_identity (fun _ _ => (1/2 : ℝ)) (fun _ => 0) (fun _ => 1)
    (fun _ => 20) (fun _ => none) (fun _ _ => (1/2 : ℝ)) (fun _ => 0)
    (fun _ _ => (1/2 : ℝ)) 0 0 (by norm_num) (by norm_num) (by norm_num)

/-! ## Claim C10 helper bounds -/

lemma deltaqInc_bounds (x xl xu eta rand : ℝ)
    (hlt : xl < xu) (hx0 : xl ≤ x) (hx1 : x ≤ xu)
    (hr0 : 0 ≤ rand) (hr1 : rand ≤ 1) (heta : 0 ≤ eta) :
    0 ≤ deltaqInc x xl xu eta rand ∧
    deltaqInc x xl xu eta rand ≤ (xu - x) / (xu - xl) := by
  have ht0 : 0 ≤ (xu - x) / (xu - xl) := div_nonneg (by linarith) (by linarith)
  have ht1 : (xu - x) / (xu - xl) ≤ 1 :=
    (div_le_one (by linarith)).mpr (by linarith)
  have hb0 : 0 ≤ 1 - (xu - x) / (xu - xl) := by linarith
  have hb1 : 1 - (xu - x) / (xu - xl) ≤ 1 := by linarith
  have hc := rpow_convex_combo (1 - (xu - x) / (xu - xl)) (eta + 1)
    (1 - rand) rand hb0 hb1 (by linarith) (by linarith) hr0 (by ring)
  unfold deltaqInc
  constructor
  · linarith [hc.2]
  · linarith [hc.1]

lemma deltaqDec_bounds (x xl xu eta rand : ℝ)
    (hlt : xl < xu) (hx0 : xl ≤ x) (hx1 : x ≤ xu)
    (hr0 : 0 ≤ rand) (hr1 : rand ≤ 1) (heta : 0 ≤ eta) :
    -((x - xl) / (xu - xl)) ≤ deltaqDec x xl xu eta rand ∧
    deltaqDec x xl xu eta rand ≤ 0 := by
  have ht0 : 0 ≤ (x - xl) / (xu - xl) := div_nonneg (by linarith) (by linarith)
  have ht1 : (x - xl) / (xu - xl) ≤ 1 :=
    (div_le_one (by linarith)).mpr (by linarith)
  have hb0 : 0 ≤ 1 - (x - xl) / (xu - xl) := by linarith
  have hb1 : 1 - (x - xl) / (xu - xl) ≤ 1 := by linarith
  have hc := rpow_convex_combo (1 - (x - xl) / (xu - xl)) (eta + 1)
    rand (1 - rand) hb0 hb1 (by linarith) hr0 (by linarith) (by ring)
  unfold deltaqDec
  constructor
  · linarith [hc.1]
  · linarith [hc.2]

/-! ## Claim C10

Before the clamping steps, the directional perturbations are one sided: an
Increasing-tagged gene receives a delta between zero and the normalised
distance to the upper bound, so its mutated value stays in the interval from
the gene to the upper bound; a Decreasing-tagged gene symmetrically. -/

/-- C10: for an in-bounds gene with separated bounds, a unit-interval draw
and a non-negative bias strength, the Increasing delta lies in the interval
from zero to the normalised upper gap and the mutated value in the interval
from the gene to the upper bound, and the Decreasing delta lies in the
interval from minus the normalised lower gap to zero with the mutated value
between the lower bound and the gene. -/
theorem directional_deltaq_one_sided (x xl xu eta rand : ℝ)
    (hlt : xl < xu) (hx0 : xl ≤ x) (hx1 : x ≤ xu)
    (hr0 : 0 ≤ rand) (hr1 : rand ≤ 1) (heta : 0 ≤ eta) :
    (0 ≤ deltaqInc x xl xu eta rand ∧
     deltaqInc x xl xu eta rand ≤ (xu - x) / (xu - xl) ∧
     x ≤ x + deltaqInc x xl xu eta rand * (xu - xl) ∧
     x + deltaqInc x xl xu eta rand * (xu - xl) ≤ xu) ∧
    (-((x - xl) / (xu - xl)) ≤ deltaqDec x xl xu eta rand ∧
     deltaqDec x xl xu eta rand ≤ 0 ∧
     xl ≤ x + deltaqDec x xl xu eta rand * (xu - xl) ∧
     x + deltaqDec x xl xu eta rand * (xu - xl) ≤ x) := by
  obtain ⟨hi0, hi1⟩ := deltaqInc_bounds x xl xu eta rand hlt hx0 hx1 hr0 hr1 heta
  obtain ⟨hd0, hd1⟩ := deltaqDec_bounds x xl xu eta rand hlt hx0 hx1 hr0 hr1 heta
  have hne : xu - xl ≠ 0 := by linarith
  have hposd : (0 : ℝ) < xu - xl := by linarith
  have htmul : (xu - x) / (xu - xl) * (xu - xl) = xu - x := div_mul_cancel₀ _ hne
  have hsmul : (x - xl) / (xu - xl) * (xu - xl) = x - xl := div_mul_cancel₀ _ hne
  refine ⟨⟨hi0, hi1, ?_, ?_⟩, ⟨hd0, hd1, ?_, ?_⟩⟩
  · nlinarith
  · nlinarith [mul_le_mul_of_nonneg_right hi1 hposd.le]
  · nlinarith [mul_le_mul_of_nonneg_right hd0 hposd.le]
  · nlinarith

/-- Witness for C10 at the midpoint of unit bounds. -/
theorem directional_deltaq_one_sided_witness :
    (0 ≤ deltaqInc (1/2) 0 1 0 (1/2) ∧
     deltaqInc (1/2) 0 1 0 (1/2) ≤ (1 - 1/2) / (1 - 0) ∧
     (1/2 : ℝ) ≤ 1/2 + deltaqInc (1/2) 0 1 0 (1/2) * (1 - 0) ∧
     1/2 + deltaqInc (1/2) 0 1 0 (1/2) * (1 - 0) ≤ 1) ∧
    (-(((1/2 : ℝ) - 0) / (1 - 0)) ≤ deltaqDec (1/2) 0 1 0 (1/2) ∧
     deltaqDec (1/2) 0 1 0 (1/2) ≤ 0 ∧
     (0 : ℝ) ≤ 1/2 + deltaqDec (1/2) 0 1 0 (1/2) * (1 - 0) ∧
     1/2 + deltaqDec (1/2) 0 1 0 (1/2) * (1 - 0) ≤ 1/2) :=
  directional_deltaq_one_sided (1/2) 0 1 0 (1/2) (by norm_num) (by norm_num)
    (by norm_num) (by norm_num) (by norm_num) (by norm_num)


end Moea
